import Mathlib

/-!
# goimportgraph: module-to-repository resolution

A shallow embedding of `goimportgraph.go` (`getRepoURL`,
`getMetaGoImportContent`) and of `which/which.go` (`Which`), together with the
library functions they call, followed by the properties proved about them.

Go strings are embedded as Lean `String`; library functions are written over
the character list of a string by structural recursion, so that every
definition evaluates on concrete inputs.
-/

namespace GoImportGraph

/-! ## Package `strings` and `unicode` -/

/-- Go `unicode.IsSpace`: the code points with the White_Space property. -/
def isSpace (c : Char) : Bool :=
  let n := c.toNat
  (9 ≤ n && n ≤ 13) || n == 0x20 || n == 0x85 || n == 0xA0 || n == 0x1680 ||
    (0x2000 ≤ n && n ≤ 0x200A) || n == 0x2028 || n == 0x2029 || n == 0x202F ||
    n == 0x205F || n == 0x3000

/-- Worker of `Fields`: `cur` is the field being read, in reverse. -/
def fieldsAux : List Char → List Char → List String
  | [], cur => if cur.isEmpty then [] else [String.mk cur.reverse]
  | c :: cs, cur =>
    if isSpace c then
      if cur.isEmpty then fieldsAux cs [] else String.mk cur.reverse :: fieldsAux cs []
    else fieldsAux cs (c :: cur)

/-- Go `strings.Fields`: the maximal runs of non-space characters of `s`. -/
def Fields (s : String) : List String := fieldsAux s.data []

/-- Worker of `Split`: `cur` is the piece being read, in reverse. -/
def splitAux (sep : Char) : List Char → List Char → List String
  | [], cur => [String.mk cur.reverse]
  | c :: cs, cur =>
    if c = sep then String.mk cur.reverse :: splitAux sep cs [] else splitAux sep cs (c :: cur)

/-- Go `strings.Split(s, sep)` for a separator of one character, which is what
both call sites pass (`"/"` and `string(os.PathListSeparator)`). -/
def Split (s : String) (sep : Char) : List String := splitAux sep s.data []

/-- Go `strings.Join`. -/
def Join : List String → String → String
  | [], _ => ""
  | [a], _ => a
  | a :: b :: rest, sep => a ++ sep ++ Join (b :: rest) sep

/-- Representative of the simple case-folding orbit of `c`, for the orbits that
contain an ASCII letter (these include U+212A KELVIN SIGN and U+017F LONG S). -/
def foldRune (c : Char) : Char :=
  if 'A'.toNat ≤ c.toNat ∧ c.toNat ≤ 'Z'.toNat then Char.ofNat (c.toNat + 32)
  else if c.toNat = 0x212A then 'k'
  else if c.toNat = 0x17F then 's'
  else c

/-- Go `strings.EqualFold`, exact whenever one of the two strings is ASCII (the
only use compares with `"github.com"`): equality under simple case folding. -/
def EqualFold (s t : String) : Bool := s.data.map foldRune == t.data.map foldRune

/-! ## Package `golang.org/x/net/html`: tokens -/

/-- Type `html.TokenType`. -/
inductive TokenType
  | ErrorToken
  | TextToken
  | StartTagToken
  | EndTagToken
  | SelfClosingTagToken
  | CommentToken
  | DoctypeToken
  deriving DecidableEq, Repr

/-- Type `html.Attribute`. -/
structure Attribute where
  Namespace : String := ""
  Key : String
  Val : String
  deriving DecidableEq, Repr

/-- Type `html.Token`; its field `Type` is written `Typ`. -/
structure Token where
  Typ : TokenType
  Data : String := ""
  Attr : List Attribute := []
  deriving DecidableEq, Repr

/-! ## `getMetaGoImportContent` -/

/-- Message of the only error of the scanner. -/
def ErrorUnableToFindGoImportMetaTag : String := "unable to find go-import meta tag"

/-- The attribute loop of `getMetaGoImportContent` (`for _, attr := range t.Attr`):
the state is the pair of the local `gotName` and the named result `strs`. -/
def scanAttrs : List Attribute → Bool × List String → Bool × List String
  | [], st => st
  | attr :: rest, (gotName, strs) =>
    let gotName := if attr.Key = "name" ∧ attr.Val = "go-import" then true else gotName
    let strs := if attr.Key = "content" then Fields attr.Val else strs
    scanAttrs rest (gotName, strs)

/-- The token loop of `getMetaGoImportContent`. The list holds the tokens that
successive `tokenizer.Next()` calls yield; when it is exhausted the tokenizer
yields `ErrorToken` (end of stream). `strs` is the named result, which lives
across iterations. -/
def scanTokens : List Token → List String → List String × Option String
  | [], _ => ([], some ErrorUnableToFindGoImportMetaTag)
  | t :: rest, strs =>
    match t.Typ with
    | .ErrorToken => ([], some ErrorUnableToFindGoImportMetaTag)
    | .StartTagToken =>
      if t.Data = "meta" then
        let st := scanAttrs t.Attr (false, strs)
        if st.1 && st.2.length > 0 then (st.2, none) else scanTokens rest st.2
      else scanTokens rest strs
    | _ => scanTokens rest strs

/-- Function `getMetaGoImportContent` on the token sequence of the reader:
returns `(strs, err)`. -/
def getMetaGoImportContent (tokens : List Token) : List String × Option String :=
  scanTokens tokens []

/-! ## Go `error` values -/

/-- Reasons for which `url.Parse` rejects its argument (the inner error of a
`*url.Error`); the strings are the offending pieces of the input. -/
inductive ParseReason
  | invalidControlCharacter
  | missingProtocolScheme
  | firstPathSegmentColon
  | escapeError (s : String)
  | invalidHostError (s : String)
  | missingBracket
  | invalidPort (s : String)
  | invalidUserinfo
  deriving DecidableEq, Repr

/-- The values of type `error` that `getRepoURL` can return. -/
inductive GoError
  /-- An error made by `errors.New` or `fmt.Errorf`, with its message. -/
  | errorString (msg : String)
  /-- Type `*url.Error`, as returned by `url.Parse`. -/
  | urlError (Op URL : String) (Err : ParseReason)
  /-- The error of a failed `http.Get` (no response), with its description. -/
  | transport (description : String)
  deriving DecidableEq, Repr

/-! ## Package `net/url`

Written after the standard library. Go strings are byte sequences; a Lean
string holds the same bytes as long as they are valid UTF-8. A byte that is not
part of a valid UTF-8 sequence, which only percent-decoding can produce, is
held as the code point `0x10FF00 + byte` (U+10FF80 to U+10FFFF, private use),
and escaping writes it back as that one byte. Inputs are taken not to hold
these code points themselves. -/

/-- Type `url.encoding`. -/
inductive encoding
  | encodePath
  | encodePathSegment
  | encodeHost
  | encodeZone
  | encodeUserPassword
  | encodeQueryComponent
  | encodeFragment
  deriving DecidableEq, Repr

/-- Type `url.Userinfo`. -/
structure Userinfo where
  username : String
  password : String := ""
  passwordSet : Bool := false
  deriving DecidableEq, Repr

/-- Type `url.URL`. -/
structure URL where
  Scheme : String := ""
  Opaque : String := ""
  User : Option Userinfo := none
  Host : String := ""
  Path : String := ""
  RawPath : String := ""
  OmitHost : Bool := false
  ForceQuery : Bool := false
  RawQuery : String := ""
  Fragment : String := ""
  RawFragment : String := ""
  deriving DecidableEq, Repr

/-- Function `ishex`. -/
def ishex (c : Char) : Bool :=
  let n := c.toNat
  (48 ≤ n && n ≤ 57) || (97 ≤ n && n ≤ 102) || (65 ≤ n && n ≤ 70)

/-- Function `unhex`. -/
def unhex (c : Char) : Nat :=
  let n := c.toNat
  if 48 ≤ n ∧ n ≤ 57 then n - 48
  else if 97 ≤ n ∧ n ≤ 102 then n - 97 + 10
  else if 65 ≤ n ∧ n ≤ 70 then n - 65 + 10
  else 0

/-- The table `upperhex`. -/
def upperhex (n : Nat) : Char := "0123456789ABCDEF".data.getD n '0'

/-- ASCII letters and digits. -/
def isAlnum (c : Char) : Bool :=
  let n := c.toNat
  (97 ≤ n && n ≤ 122) || (65 ≤ n && n ≤ 90) || (48 ≤ n && n ≤ 57)

/-- Function `shouldEscape`. -/
def shouldEscape (c : Char) (mode : encoding) : Bool :=
  if isAlnum c then false
  else if (mode = .encodeHost ∨ mode = .encodeZone) ∧ c ∈ "!$&'()*+,;=:[]<>\"".data then false
  else if c ∈ "-_.~".data then false
  else if c ∈ "$&+,/:;=?@".data then
    match mode with
    | .encodePath => c == '?'
    | .encodePathSegment => c == '/' || c == ';' || c == ',' || c == '?'
    | .encodeUserPassword => c == '@' || c == '/' || c == '?' || c == ':'
    | .encodeQueryComponent => true
    | .encodeFragment => false
    | _ => true
  else if mode = .encodeFragment ∧ c ∈ "!()*".data then false
  else true

/-- The UTF-8 encoding of a code point. -/
def utf8Bytes (n : Nat) : List Nat :=
  if n < 0x80 then [n]
  else if n < 0x800 then [0xC0 + n / 64, 0x80 + n % 64]
  else if n < 0x10000 then [0xE0 + n / 4096, 0x80 + n / 64 % 64, 0x80 + n % 64]
  else [0xF0 + n / 262144, 0x80 + n / 4096 % 64, 0x80 + n / 64 % 64, 0x80 + n % 64]

/-- The stand-in for a byte outside any valid UTF-8 sequence. -/
def rawByte (b : Nat) : Char := Char.ofNat (0x10FF00 + b)

/-- The bytes of a character in a Go string: its UTF-8 encoding, or the one
byte it stands for. -/
def charBytes (c : Char) : List Nat :=
  if 0x10FF80 ≤ c.toNat then [c.toNat - 0x10FF00] else utf8Bytes c.toNat

/-- Whether `b` is a UTF-8 continuation byte. -/
def isCont (b : Nat) : Bool := 0x80 ≤ b && b ≤ 0xBF

/-- The character that starts with byte `b0`, followed by `rest`, when a valid
UTF-8 sequence starts there: its code point and the number of continuation
bytes. Overlong forms, surrogates and values past U+10FFFF are not valid; the
sequences of the stand-in code points are left as single bytes. -/
def decodeAt (b0 : Nat) (rest : List Nat) : Option (Nat × Nat) :=
  if b0 < 0x80 then some (b0, 0)
  else
    match rest with
    | [] => none
    | b1 :: r1 =>
      if 0xC2 ≤ b0 ∧ b0 ≤ 0xDF ∧ isCont b1 then some ((b0 - 0xC0) * 64 + (b1 - 0x80), 1)
      else
        match r1 with
        | [] => none
        | b2 :: r2 =>
          if 0xE0 ≤ b0 ∧ b0 ≤ 0xEF ∧ isCont b1 ∧ isCont b2 ∧ (b0 = 0xE0 → 0xA0 ≤ b1) ∧
              (b0 = 0xED → b1 ≤ 0x9F) then
            some ((b0 - 0xE0) * 4096 + (b1 - 0x80) * 64 + (b2 - 0x80), 2)
          else
            match r2 with
            | [] => none
            | b3 :: _ =>
              if 0xF0 ≤ b0 ∧ b0 ≤ 0xF4 ∧ isCont b1 ∧ isCont b2 ∧ isCont b3 ∧
                  (b0 = 0xF0 → 0x90 ≤ b1) ∧ (b0 = 0xF4 → b1 ≤ 0x8F) ∧
                  (b0 - 0xF0) * 262144 + (b1 - 0x80) * 4096 + (b2 - 0x80) * 64 + (b3 - 0x80) <
                    0x10FF80 then
                some ((b0 - 0xF0) * 262144 + (b1 - 0x80) * 4096 + (b2 - 0x80) * 64 + (b3 - 0x80), 3)
              else none

/-- The characters of a byte sequence; `skip` counts the continuation bytes
of the character just read. -/
def fromBytesAux : Nat → List Nat → List Char
  | _, [] => []
  | skip + 1, _ :: rest => fromBytesAux skip rest
  | 0, b :: rest =>
    match decodeAt b rest with
    | some (cp, n) => Char.ofNat cp :: fromBytesAux n rest
    | none => rawByte b :: fromBytesAux 0 rest

/-- The Lean string that holds the given bytes. -/
def fromBytes (bs : List Nat) : String := String.mk (fromBytesAux 0 bs)

/-- What `escape` writes for one character. -/
def escapeChar (mode : encoding) (c : Char) : List Char :=
  if shouldEscape c mode then
    if c = ' ' ∧ mode = .encodeQueryComponent then ['+']
    else (charBytes c).flatMap fun b => ['%', upperhex (b / 16), upperhex (b % 16)]
  else [c]

/-- Function `escape`. -/
def escape (s : String) (mode : encoding) : String := String.mk (s.data.flatMap (escapeChar mode))

/-- Worker of `unescape`: validation and decoding in one left-to-right pass,
giving the bytes of the decoded string. -/
def unescapeAux (mode : encoding) : List Char → Except ParseReason (List Nat)
  | [] => .ok []
  | '%' :: a :: b :: rest =>
    if !(ishex a && ishex b) then .error (.escapeError (String.mk ['%', a, b]))
    else if mode = .encodeHost ∧ unhex a < 8 ∧ ¬ (a = '2' ∧ b = '5') then
      .error (.escapeError (String.mk ['%', a, b]))
    else if mode = .encodeZone ∧ ¬ (a = '2' ∧ b = '5') ∧ unhex a * 16 + unhex b ≠ 32 ∧
        shouldEscape (Char.ofNat (unhex a * 16 + unhex b)) .encodeHost then
      .error (.escapeError (String.mk ['%', a, b]))
    else
      match unescapeAux mode rest with
      | .ok t => .ok ((unhex a * 16 + unhex b) :: t)
      | .error e => .error e
  | '%' :: rest => .error (.escapeError (String.mk ('%' :: rest)))
  | c :: rest =>
    if (mode = .encodeHost ∨ mode = .encodeZone) ∧ c.toNat < 0x80 ∧ shouldEscape c .encodeHost then
      .error (.invalidHostError (String.mk [c]))
    else
      match unescapeAux mode rest with
      | .ok t => .ok (charBytes (if c = '+' ∧ mode = .encodeQueryComponent then ' ' else c) ++ t)
      | .error e => .error e

/-- Function `unescape`: a string with nothing to decode is returned as it
is, once validated. -/
def unescape (s : String) (mode : encoding) : Except ParseReason String :=
  match unescapeAux mode s.data with
  | .ok t =>
    if ¬ s.data.contains '%' ∧ ¬ (mode = .encodeQueryComponent ∧ s.data.contains '+') then .ok s
    else .ok (fromBytes t)
  | .error e => .error e

/-- Whether `raw` percent-decodes, without error, to `decoded`. -/
def decodesTo (raw : String) (mode : encoding) (decoded : String) : Bool :=
  match unescape raw mode with
  | .ok p => p == decoded
  | .error _ => false

/-- Function `validEncoded`. -/
def validEncoded (s : String) (mode : encoding) : Bool :=
  s.data.all fun c => c ∈ "!$&'()*+,;=:@[]%".data || !shouldEscape c mode

/-- Go `strings.Cut` at the first occurrence of a character: the text before
it, the text after it, and whether it occurs. -/
def cutAux (sep : Char) : List Char → List Char × List Char × Bool
  | [] => ([], [], false)
  | c :: cs =>
    if c = sep then ([], cs, true)
    else let r := cutAux sep cs; (c :: r.1, r.2.1, r.2.2)

/-- Cut at the last occurrence of a character (`strings.LastIndex`). -/
def cutLast (sep : Char) (l : List Char) : List Char × List Char × Bool :=
  let r := cutAux sep l.reverse
  if r.2.2 then (r.2.1.reverse, r.1.reverse, true) else (l, [], false)

/-- Split before the first occurrence of `sub` (`strings.Index`). -/
def cutBefore (sub : List Char) : List Char → Option (List Char × List Char)
  | [] => if sub.isEmpty then some ([], []) else none
  | c :: cs =>
    if sub.isPrefixOf (c :: cs) then some ([], c :: cs)
    else (cutBefore sub cs).map fun r => (c :: r.1, r.2)

/-- Function `stringContainsCTLByte`. -/
def stringContainsCTLByte (s : List Char) : Bool := s.any fun c => c.toNat < 32 || c.toNat == 0x7f

/-- The loop of `getScheme`; `pre` is the text read so far, in reverse. The
result is `none` for the error "missing protocol scheme". -/
def getSchemeAux (raw : List Char) : List Char → List Char → Option (List Char × List Char)
  | [], _ => some ([], raw)
  | c :: cs, pre =>
    let n := c.toNat
    if (97 ≤ n ∧ n ≤ 122) ∨ (65 ≤ n ∧ n ≤ 90) then getSchemeAux raw cs (c :: pre)
    else if (48 ≤ n ∧ n ≤ 57) ∨ c = '+' ∨ c = '-' ∨ c = '.' then
      if pre.isEmpty then some ([], raw) else getSchemeAux raw cs (c :: pre)
    else if c = ':' then
      if pre.isEmpty then none else some (pre.reverse, cs)
    else some ([], raw)

/-- Function `getScheme`. -/
def getScheme (raw : List Char) : Option (List Char × List Char) := getSchemeAux raw raw []

/-- ASCII lower case, which is `strings.ToLower` on the characters of a scheme. -/
def toLowerASCII (c : Char) : Char :=
  if 65 ≤ c.toNat ∧ c.toNat ≤ 90 then Char.ofNat (c.toNat + 32) else c

/-- Function `validOptionalPort`. -/
def validOptionalPort : List Char → Bool
  | [] => true
  | c :: rest => c == ':' && rest.all fun b => 48 ≤ b.toNat && b.toNat ≤ 57

/-- Function `validUserinfo`. -/
def validUserinfo (s : List Char) : Bool :=
  s.all fun r => isAlnum r || r ∈ "-._:~!$&'()*+,;=%@".data

/-- Function `parseHost`. -/
def parseHost (host : List Char) : Except ParseReason String :=
  let plain : Except ParseReason String := unescape (String.mk host) .encodeHost
  if "[".data.isPrefixOf host then
    let r := cutLast ']' host
    if !r.2.2 then .error .missingBracket
    else if !validOptionalPort r.2.1 then .error (.invalidPort (String.mk r.2.1))
    else
      match cutBefore "%25".data r.1 with
      | some (h1, z) =>
        match unescape (String.mk h1) .encodeHost with
        | .error e => .error e
        | .ok host1 =>
          match unescape (String.mk z) .encodeZone with
          | .error e => .error e
          | .ok host2 =>
            match unescape (String.mk (']' :: r.2.1)) .encodeHost with
            | .error e => .error e
            | .ok host3 => .ok (host1 ++ host2 ++ host3)
      | none => plain
  else
    let r := cutLast ':' host
    if r.2.2 ∧ !validOptionalPort (':' :: r.2.1) then
      .error (.invalidPort (String.mk (':' :: r.2.1)))
    else plain

/-- Function `parseAuthority`. -/
def parseAuthority (authority : List Char) : Except ParseReason (Option Userinfo × String) :=
  let r := cutLast '@' authority
  match parseHost (if r.2.2 then r.2.1 else authority) with
  | .error e => .error e
  | .ok host =>
    if !r.2.2 then .ok (none, host)
    else
      let userinfo := r.1
      if !validUserinfo userinfo then .error .invalidUserinfo
      else if !userinfo.contains ':' then
        match unescape (String.mk userinfo) .encodeUserPassword with
        | .error e => .error e
        | .ok name => .ok (some { username := name }, host)
      else
        let c := cutAux ':' userinfo
        match unescape (String.mk c.1) .encodeUserPassword with
        | .error e => .error e
        | .ok name =>
          match unescape (String.mk c.2.1) .encodeUserPassword with
          | .error e => .error e
          | .ok pw => .ok (some { username := name, password := pw, passwordSet := true }, host)

/-- Method `(*URL).setPath`. -/
def URL.setPath (u : URL) (p : String) : Except ParseReason URL :=
  match unescape p .encodePath with
  | .error e => .error e
  | .ok path => .ok { u with Path := path, RawPath := if p = escape path .encodePath then "" else p }

/-- Method `(*URL).setFragment`. -/
def URL.setFragment (u : URL) (f : String) : Except ParseReason URL :=
  match unescape f .encodeFragment with
  | .error e => .error e
  | .ok frag =>
    .ok { u with Fragment := frag, RawFragment := if f = escape frag .encodeFragment then "" else f }

/-- The second half of `parse` (with `viaRequest = false`): `url` holds the
scheme and the query, `rest` is what remains of the input. -/
def parseHier (url : URL) (rest : List Char) : Except ParseReason URL :=
  if ¬ "/".data.isPrefixOf rest ∧ url.Scheme ≠ "" then .ok { url with Opaque := String.mk rest }
  else if ¬ "/".data.isPrefixOf rest ∧ (cutAux '/' rest).1.contains ':' then
    .error .firstPathSegmentColon
  else if (url.Scheme ≠ "" ∨ ¬ "///".data.isPrefixOf rest) ∧ "//".data.isPrefixOf rest then
    let a := cutBefore "/".data (rest.drop 2)
    let authority := match a with | some r => r.1 | none => rest.drop 2
    let rest := match a with | some r => r.2 | none => []
    match parseAuthority authority with
    | .error e => .error e
    | .ok (user, host) => URL.setPath { url with User := user, Host := host } (String.mk rest)
  else if url.Scheme ≠ "" ∧ "/".data.isPrefixOf rest then
    URL.setPath { url with OmitHost := true } (String.mk rest)
  else URL.setPath url (String.mk rest)

/-- The first half of `parse` (with `viaRequest = false`): control characters,
the URL `*`, the scheme and the query. -/
def parse (rawURL : List Char) : Except ParseReason URL :=
  if stringContainsCTLByte rawURL then .error .invalidControlCharacter
  else if rawURL = ['*'] then .ok { Path := "*" }
  else
    match getScheme rawURL with
    | none => .error .missingProtocolScheme
    | some (scheme, rest) =>
      let Scheme := String.mk (scheme.map toLowerASCII)
      if rest.getLast? = some '?' ∧ rest.count '?' = 1 then
        parseHier { Scheme := Scheme, ForceQuery := true } rest.dropLast
      else
        parseHier { Scheme := Scheme, RawQuery := String.mk (cutAux '?' rest).2.1 } (cutAux '?' rest).1

/-- Function `url.Parse`. -/
def Parse (rawURL : String) : Except GoError URL :=
  let c := cutAux '#' rawURL.data
  match parse c.1 with
  | .error e => .error (.urlError "parse" (String.mk c.1) e)
  | .ok url =>
    if c.2.1.isEmpty then .ok url
    else
      match URL.setFragment url (String.mk c.2.1) with
      | .error e => .error (.urlError "parse" rawURL e)
      | .ok url => .ok url

/-- Method `(*URL).EscapedPath`. -/
def URL.EscapedPath (u : URL) : String :=
  if u.RawPath ≠ "" ∧ validEncoded u.RawPath .encodePath ∧ decodesTo u.RawPath .encodePath u.Path then
    u.RawPath
  else if u.Path = "*" then "*"
  else escape u.Path .encodePath

/-- Method `(*URL).EscapedFragment`. -/
def URL.EscapedFragment (u : URL) : String :=
  if u.RawFragment ≠ "" ∧ validEncoded u.RawFragment .encodeFragment ∧
      decodesTo u.RawFragment .encodeFragment u.Fragment then
    u.RawFragment
  else escape u.Fragment .encodeFragment

/-- Method `(*Userinfo).String`. -/
def Userinfo.String (u : Userinfo) : String :=
  escape u.username .encodeUserPassword ++
    (if u.passwordSet then ":" ++ escape u.password .encodeUserPassword else "")

/-- The part of `(*URL).String` between the scheme and the query, for a URL
without `Opaque`: authority and path. -/
def URL.hierPart (u : URL) : String :=
  let auth : String :=
    if u.Scheme ≠ "" ∨ u.Host ≠ "" ∨ u.User.isSome then
      if u.OmitHost ∧ u.Host = "" ∧ u.User.isNone then ""
      else
        (if u.Host ≠ "" ∨ u.Path ≠ "" ∨ u.User.isSome then "//" else "") ++
        (match u.User with | some ui => Userinfo.String ui ++ "@" | none => "") ++
        (if u.Host ≠ "" then escape u.Host .encodeHost else "")
    else ""
  let path := URL.EscapedPath u
  let slash : String := if path ≠ "" ∧ path.data.head? ≠ some '/' ∧ u.Host ≠ "" then "/" else ""
  let dot : String :=
    if u.Scheme = "" ∧ auth = "" ∧ slash = "" ∧ (cutAux '/' path.data).1.contains ':' then "./" else ""
  auth ++ slash ++ dot ++ path

/-- Method `(*URL).String`. -/
def URL.String (u : URL) : String :=
  (if u.Scheme ≠ "" then u.Scheme ++ ":" else "") ++
  (if u.Opaque ≠ "" then u.Opaque else URL.hierPart u) ++
  (if u.ForceQuery ∨ u.RawQuery ≠ "" then "?" ++ u.RawQuery else "") ++
  (if u.Fragment ≠ "" then "#" ++ URL.EscapedFragment u else "")

/-- Type `url.Values`, as an association list. -/
abbrev Values := List (String × List String)

/-- Method `Values.Set`. -/
def Values.Set (v : Values) (key value : String) : Values :=
  (key, [value]) :: v.filter fun e => e.1 ≠ key

/-- Function `url.QueryEscape`. -/
def QueryEscape (s : String) : String := escape s .encodeQueryComponent

/-- Method `Values.Encode`: `key=value` pairs joined by `&`. Go emits the keys
in sorted order; the list is taken to hold them in that order. -/
def Values.Encode (v : Values) : String :=
  Join (v.flatMap fun e => e.2.map fun x => QueryEscape e.1 ++ "=" ++ QueryEscape x) "&"

/-! ## Package `net/http` and `fmt` -/

/-- Type `http.Response`: the status code and the body, the body being given
by the tokens that `html.NewTokenizer` yields on it. -/
structure Response where
  StatusCode : Int
  Body : List Token
  deriving DecidableEq, Repr

/-- The transport: what `http.Get` returns for a URL, a response or an error. -/
abbrev Transport := String → Except GoError Response

/-- The verb `%v` of `fmt` on an `int`: decimal digits, with a sign when
negative. -/
def formatInt : Int → String
  | .ofNat n => Nat.repr n
  | .negSucc n => "-" ++ Nat.repr (n + 1)

/-! ## `getRepoURL` -/

/-- What one call of `getRepoURL` does: the two results `(string, error)` and
the URLs it has passed to `http.Get`, in order. -/
structure Result where
  url : String
  err : Option GoError
  fetched : List String
  deriving DecidableEq, Repr

/-- Lines 79-82 of `getRepoURL`: the scheme and the query of `u` are
overwritten. -/
def setDiscovery (u : URL) : URL :=
  let u := { u with Scheme := "https" }
  let v : Values := Values.Set [] "go-get" "1"
  { u with RawQuery := Values.Encode v }

/-- Lines 88-93 of `getRepoURL`: the `switch` on the first segment of the
path, `splitPath` being the non-empty `strings.Split(u.Path, "/")`. -/
def truncatePath (u : URL) (splitPath : List String) : URL :=
  if EqualFold (splitPath.headD "") "github.com" then
    if splitPath.length > 3 then { u with Path := Join (splitPath.take 3) "/" } else u
  else u

/-- The value of `u` when `getRepoURL` reaches `http.Get`, from the URL that
`url.Parse` returned. -/
def lookupURL (u : URL) : URL :=
  truncatePath (setDiscovery u) (Split (setDiscovery u).Path '/')

/-- Lines 103-113 of `getRepoURL`: what is returned from the scanned fields
once the response has status 200; `us` is `u.String()`. -/
def extract (us : String) (body : List Token) : String × Option GoError :=
  let r := getMetaGoImportContent body
  match r.2 with
  | some msg => ("", some (.errorString msg))
  | none =>
    let goImportContentStrings := r.1
    if goImportContentStrings.length ≥ 3 ∧ goImportContentStrings.getD 1 "" ≠ "git" then
      ("", some (.errorString (us ++ ": unsupported vcs " ++ goImportContentStrings.getD 1 "")))
    else if goImportContentStrings.length ≥ 3 then (goImportContentStrings.getD 2 "", none)
    else ("", some (.errorString "unable to extract "))

/-- Function `getRepoURL`, over the transport `get`. -/
def getRepoURL (get : Transport) (goListMod : String) : Result :=
  match Fields goListMod with
  | [] => ⟨"", some (.errorString ("not a module: " ++ goListMod)), []⟩
  | m :: _ =>
    match Parse m with
    | .error e => ⟨"", some e, []⟩
    | .ok u =>
      let u := setDiscovery u
      let splitPath := Split u.Path '/'
      if splitPath.length = 0 then
        ⟨"", some (.errorString ("path error: " ++ URL.String u)), []⟩
      else
        let u := truncatePath u splitPath
        match get (URL.String u) with
        | .error e => ⟨"", some e, [URL.String u]⟩
        | .ok resp =>
          if resp.StatusCode ≠ 200 then
            ⟨"", some (.errorString (formatInt resp.StatusCode ++ ": unable to GET " ++ URL.String u)),
              [URL.String u]⟩
          else
            let r := extract (URL.String u) resp.Body
            ⟨r.1, r.2, [URL.String u]⟩

/-! ## Package `path/filepath` and `os` -/

/-- The element loop of `filepath.Clean`: `out` is the list of elements
written so far, last one first. An empty element and `.` are dropped; `..`
removes the last element written unless there is none or it is itself `..`,
in which case it is written when the path is not rooted and dropped when it
is. -/
def cleanElems (rooted : Bool) : List String → List String → List String
  | [], out => out
  | e :: rest, out =>
    if e = "" ∨ e = "." then cleanElems rooted rest out
    else if e = ".." then
      match out with
      | top :: below =>
        if top = ".." then cleanElems rooted rest (e :: out) else cleanElems rooted rest below
      | [] => if rooted then cleanElems rooted rest [] else cleanElems rooted rest [e]
    else cleanElems rooted rest (e :: out)

/-- Function `filepath.Clean` on a Unix system (separator `/`, no volume
names). -/
def Clean (path : String) : String :=
  if path = "" then "."
  else
    let rooted : Bool := path.data.head? = some '/'
    let out := (cleanElems rooted (Split path '/') []).reverse
    if rooted then "/" ++ Join out "/"
    else if out.isEmpty then "." else Join out "/"

/-- Function `filepath.Join` for two elements. -/
def filepathJoin (p prog : String) : String :=
  if p ≠ "" then Clean (p ++ "/" ++ prog)
  else if prog ≠ "" then Clean prog
  else ""

/-- Type `fs.FileInfo`, as far as `Which` reads it: `IsDir()` and `Mode()`. -/
structure FileInfo where
  IsDir : Bool
  Mode : Nat
  deriving DecidableEq, Repr

/-- The file system: what `os.Stat` returns for a path, `none` for an error. -/
abbrev FileSystem := String → Option FileInfo

/-! ## `Which` -/

/-- The loop of `Which` over the directories of `PATH`. -/
def whichLoop (stat : FileSystem) (prog : String) : List String → String
  | [] => ""
  | p :: rest =>
    let progPath := filepathJoin p prog
    match stat progPath with
    | none => whichLoop stat prog rest
    | some fi =>
      if fi.IsDir then whichLoop stat prog rest
      else if fi.Mode &&& 0o111 ≠ 0 then progPath
      else whichLoop stat prog rest

/-- Function `Which`: `PATH` is the value of the environment variable and
`stat` the file system. -/
def Which (PATH : String) (stat : FileSystem) (prog : String) : String :=
  whichLoop stat prog (Split PATH ':')

/-! ## Vocabulary of the properties -/

/-- Whether the attribute list holds `name="go-import"`. -/
def hasGoImportName (attrs : List Attribute) : Bool :=
  attrs.any fun a => a.Key == "name" && a.Val == "go-import"

/-- Whether `t` is a start-tag token named `meta` carrying `name="go-import"`. -/
def isGoImportMeta (t : Token) : Bool :=
  t.Typ == .StartTagToken && t.Data == "meta" && hasGoImportName t.Attr

/-- The value of the last attribute named `content`, if there is one. -/
def lastContent : List Attribute → Option String
  | [] => none
  | a :: rest =>
    match lastContent rest with
    | some v => some v
    | none => if a.Key = "content" then some a.Val else none

/-- The string holds neither `?` nor `#`. -/
def noQueryMark (s : String) : Prop := ∀ c ∈ s.data, c ≠ '?' ∧ c ≠ '#'

/-- Whether directory `p` holds the program: `os.Stat` succeeds on the join of
`p` and `prog`, the entry is not a directory and has an execute bit. -/
def qualifies (stat : FileSystem) (prog p : String) : Bool :=
  match stat (filepathJoin p prog) with
  | some fi => !fi.IsDir && (fi.Mode &&& 0o111 != 0)
  | none => false

/-- A file system with `go` in three places: a directory in `/bin`, a file
without execute bit in `/usr/bin`, an executable in `/usr/local/bin`. -/
def exampleFS : FileSystem := fun path =>
  if path = "/bin/go" then some ⟨true, 0o755⟩
  else if path = "/usr/bin/go" then some ⟨false, 0o644⟩
  else if path = "/usr/local/bin/go" then some ⟨false, 0o755⟩
  else none

/-- A path element other than the empty one, `.` and `..`. -/
def isRealElem (e : String) : Bool := e != "" && e != "." && e != ".."

/-- A directory in the form `filepath.Clean` leaves alone, the root apart:
`/`-separated real elements, after an empty first one when it is absolute. -/
def isCleanDir (p : String) : Bool :=
  match Split p '/' with
  | [] => false
  | a :: rest => if a = "" then !rest.isEmpty && rest.all isRealElem else (a :: rest).all isRealElem

/-- A program name that is one real path element. -/
def isPlainName (prog : String) : Bool := isRealElem prog && !prog.data.contains '/'

/-- The decimal numeral of an integer, most significant digit first: a `-` for
a negative number, then the characters `'0' + d` for the base-10 digits `d` of
its absolute value (`Nat.digits`), or `0` for zero. -/
def decimalNumeral (n : Int) : String :=
  String.mk ((if n < 0 then ['-'] else []) ++
    (if n = 0 then ['0'] else (Nat.digits 10 n.natAbs).reverse.map fun d => Char.ofNat (48 + d)))

/-- A file system whose working directory holds an executable `go`, and
nothing else. -/
def workingDirFS : FileSystem := fun path =>
  if path = "go" ∨ path = "./go" then some ⟨false, 0o755⟩ else none

/-- A start-tag token named `meta` with the given attributes, as key and value
pairs. -/
def metaTag (attrs : List (String × String)) : Token :=
  { Typ := .StartTagToken, Data := "meta", Attr := attrs.map fun kv => { Key := kv.1, Val := kv.2 } }

/-- A transport that answers the lookup of `example.com/pkg` with the given
status and body, and fails for every other URL. -/
def exampleTransport (status : Int) (body : List Token) : Transport := fun url =>
  if url = "https://example.com/pkg?go-get=1" then .ok ⟨status, body⟩
  else .error (.transport "no such host")

/-! ## The tag scanner -/

theorem scanAttrs_eq (attrs : List Attribute) (g : Bool) (s : List String) :
    scanAttrs attrs (g, s) =
      (g || hasGoImportName attrs,
        match lastContent attrs with
        | some v => Fields v
        | none => s) := by
  induction attrs generalizing g s with
  | nil => simp [scanAttrs, hasGoImportName, lastContent]
  | cons a rest ih =>
    simp only [scanAttrs, ih, lastContent, hasGoImportName, List.any_cons]
    refine Prod.ext ?_ ?_
    · by_cases h : a.Key = "name" ∧ a.Val = "go-import"
      · simp [h.1, h.2]
      · have h2 : (a.Key == "name" && a.Val == "go-import") = false := by
          simpa using h
        simp [h, h2]
    · cases hl : lastContent rest with
      | some v => simp
      | none => by_cases hc : a.Key = "content" <;> simp [hc]

theorem scanTokens_skip (pre rest : List Token) (strs : List String)
    (h : ∀ x ∈ pre, x.Typ ≠ .ErrorToken ∧ isGoImportMeta x = false) :
    ∃ strs2, scanTokens (pre ++ rest) strs = scanTokens rest strs2 := by
  induction pre generalizing strs with
  | nil => exact ⟨strs, rfl⟩
  | cons x pre ih =>
    have hx := h x (List.mem_cons_self _ _)
    have hpre : ∀ y ∈ pre, y.Typ ≠ .ErrorToken ∧ isGoImportMeta y = false :=
      fun y hy => h y (List.mem_cons_of_mem _ hy)
    rw [List.cons_append, scanTokens]
    cases hT : x.Typ with
    | ErrorToken => exact absurd hT hx.1
    | StartTagToken =>
      simp only []
      by_cases hd : x.Data = "meta"
      · have hn : hasGoImportName x.Attr = false := by
          have := hx.2
          simpa [isGoImportMeta, hT, hd] using this
        simp only [hd, if_true, scanAttrs_eq, hn, Bool.false_or, Bool.false_and]
        exact ih _ hpre
      · simp only [hd, if_false]
        exact ih _ hpre
    | TextToken => exact ih _ hpre
    | EndTagToken => exact ih _ hpre
    | SelfClosingTagToken => exact ih _ hpre
    | CommentToken => exact ih _ hpre
    | DoctypeToken => exact ih _ hpre

theorem scanTokens_not_found (toks : List Token) (strs : List String)
    (h : ∀ t ∈ toks.takeWhile (fun t => t.Typ != .ErrorToken), isGoImportMeta t = false) :
    scanTokens toks strs = ([], some ErrorUnableToFindGoImportMetaTag) := by
  induction toks generalizing strs with
  | nil => rfl
  | cons x rest ih =>
    rw [scanTokens]
    cases hT : x.Typ with
    | ErrorToken => rfl
    | StartTagToken =>
      have hrest : ∀ t ∈ rest.takeWhile (fun t => t.Typ != .ErrorToken), isGoImportMeta t = false := by
        intro t ht
        apply h
        simp [List.takeWhile_cons, hT, ht]
      have hx : isGoImportMeta x = false := by
        apply h
        simp [List.takeWhile_cons, hT]
      simp only []
      by_cases hd : x.Data = "meta"
      · have hn : hasGoImportName x.Attr = false := by
          simpa [isGoImportMeta, hT, hd] using hx
        simp only [hd, if_true, scanAttrs_eq, hn, Bool.false_or, Bool.false_and]
        exact ih _ hrest
      · simp only [hd, if_false]
        exact ih _ hrest
    | TextToken | EndTagToken | SelfClosingTagToken | CommentToken | DoctypeToken =>
      apply ih
      intro t ht
      apply h
      simp [List.takeWhile_cons, hT, ht]

/-- C1 (as amended): when the first start-tag token named `meta` with
`name="go-import"` has a last `content` attribute whose value has at least one
field, and no error token precedes that tag, the scanner succeeds with exactly
the fields of that last `content` attribute, whatever tokens follow; the
documented example content yields its three fields. -/
theorem C1_first_tag_wins :
    (∀ (pre post : List Token) (t : Token) (v : String),
      (∀ x ∈ pre, x.Typ ≠ .ErrorToken ∧ isGoImportMeta x = false) →
      isGoImportMeta t = true → lastContent t.Attr = some v → Fields v ≠ [] →
      getMetaGoImportContent (pre ++ t :: post) = (Fields v, none)) ∧
    getMetaGoImportContent
        [metaTag [("name", "go-import"), ("content", "example.com/pkg git https://example.com/pkg.git")]] =
      (["example.com/pkg", "git", "https://example.com/pkg.git"], none) := by
  refine ⟨?_, by decide⟩
  intro pre post t v hpre ht hv hf
  obtain ⟨strs2, h2⟩ := scanTokens_skip pre (t :: post) [] hpre
  have ht2 : t.Typ = .StartTagToken ∧ t.Data = "meta" ∧ hasGoImportName t.Attr = true := by
    simpa [isGoImportMeta, and_assoc] using ht
  have hlen : 0 < (Fields v).length := List.length_pos.mpr hf
  rw [getMetaGoImportContent, h2, scanTokens, ht2.1]
  simp only [ht2.2.1, if_true, scanAttrs_eq, ht2.2.2, hv, Bool.or_true, Bool.true_and]
  simp [hlen]

/-- C1, witness: of two `go-import` meta tags with different content, placed
after other tokens, only the fields of the first are returned. -/
theorem C1_first_tag_wins_witness :
    getMetaGoImportContent
        ([{ Typ := .TextToken, Data := "x" }, metaTag [("name", "viewport"), ("content", "width=1")]] ++
          metaTag [("name", "go-import"), ("content", "a.io/x git https://a.io/x.git")] ::
          [metaTag [("name", "go-import"), ("content", "b.io/y hg https://b.io/y")]]) =
      (Fields "a.io/x git https://a.io/x.git", none) :=
  C1_first_tag_wins.1 _ _ _ "a.io/x git https://a.io/x.git" (by decide) (by decide) (by decide)
    (by decide)

/-- C1, counterexample to the claim as stated: a `go-import` meta tag that has
a `content` attribute with two fields, followed in the same tag by an empty
`content` attribute, does not make the scanner succeed. -/
theorem C1_counterexample :
    ¬ (∀ (pre post : List Token) (t : Token),
        (∀ x ∈ pre, x.Typ ≠ .ErrorToken ∧ isGoImportMeta x = false) →
        isGoImportMeta t = true →
        (∃ a ∈ t.Attr, a.Key = "content" ∧ Fields a.Val ≠ []) →
        (getMetaGoImportContent (pre ++ t :: post)).2 = none ∧
          some (getMetaGoImportContent (pre ++ t :: post)).1 = (lastContent t.Attr).map Fields) := by
  intro h
  have h1 := h [] [] (metaTag [("name", "go-import"), ("content", "a b"), ("content", "")])
    (by simp) (by decide) ⟨{ Key := "content", Val := "a b" }, by decide, by decide, by decide⟩
  exact absurd h1.1 (by decide)

/-- C6: a token sequence with no `go-import` meta start tag before its first
error token (or its end) makes the scanner fail with the one "unable to find
go-import meta tag" error and an empty field list. -/
theorem C6_tag_not_found (toks : List Token)
    (h : ∀ t ∈ toks.takeWhile (fun t => t.Typ != .ErrorToken), isGoImportMeta t = false) :
    getMetaGoImportContent toks = ([], some "unable to find go-import meta tag") :=
  scanTokens_not_found toks [] h

/-- C6, witness: a self-closing `go-import` meta token, then an error token,
then a qualifying start tag that is never reached. -/
theorem C6_tag_not_found_witness :
    getMetaGoImportContent
        [{ Typ := .SelfClosingTagToken, Data := "meta",
            Attr := [{ Key := "name", Val := "go-import" }, { Key := "content", Val := "a git b" }] },
          { Typ := .ErrorToken },
          metaTag [("name", "go-import"), ("content", "a git b")]] =
      ([], some "unable to find go-import meta tag") ∧
    getMetaGoImportContent [] = ([], some "unable to find go-import meta tag") :=
  ⟨C6_tag_not_found _ (by decide), C6_tag_not_found [] (by decide)⟩

/-- C7, the code at the failing input: the scanner stops at a `go-import` meta
tag that has no `content` attribute and returns the fields of the `content`
attribute of the earlier `description` meta tag. -/
theorem C7_stale_content :
    lastContent (metaTag [("name", "go-import")]).Attr = none ∧
    isGoImportMeta (metaTag [("name", "description"), ("content", "foo bar")]) = false ∧
    getMetaGoImportContent
        [metaTag [("name", "description"), ("content", "foo bar")], metaTag [("name", "go-import")]] =
      (["foo", "bar"], none) ∧
    getMetaGoImportContent [metaTag [("name", "go-import")]] =
      ([], some "unable to find go-import meta tag") := by
  decide

/-! ## Strings and `getRepoURL` -/

theorem fieldsAux_eq_nil (l cur : List Char) :
    fieldsAux l cur = [] ↔ cur = [] ∧ ∀ c ∈ l, isSpace c = true := by
  induction l generalizing cur with
  | nil => cases cur <;> simp [fieldsAux]
  | cons c cs ih =>
    rw [fieldsAux]
    by_cases hc : isSpace c = true
    · cases cur with
      | nil => simp [hc, ih]
      | cons d ds => simp [hc]
    · simp [hc, ih]

theorem Fields_eq_nil (s : String) : Fields s = [] ↔ ∀ c ∈ s.data, isSpace c = true := by
  simp [Fields, fieldsAux_eq_nil]

theorem splitAux_ne_nil (sep : Char) (l cur : List Char) : splitAux sep l cur ≠ [] := by
  induction l generalizing cur with
  | nil => simp [splitAux]
  | cons c cs ih =>
    rw [splitAux]
    split
    · simp
    · exact ih _

theorem Split_length_pos (s : String) (sep : Char) : 0 < (Split s sep).length :=
  List.length_pos.mpr (splitAux_ne_nil sep s.data [])

theorem getRepoURL_eq (get : Transport) (line m : String) (rest : List String) (u : URL)
    (hf : Fields line = m :: rest) (hp : Parse m = .ok u) :
    getRepoURL get line =
      match get (URL.String (lookupURL u)) with
      | .error e => ⟨"", some e, [URL.String (lookupURL u)]⟩
      | .ok resp =>
        if resp.StatusCode ≠ 200 then
          ⟨"", some (.errorString (formatInt resp.StatusCode ++ ": unable to GET " ++
            URL.String (lookupURL u))), [URL.String (lookupURL u)]⟩
        else
          ⟨(extract (URL.String (lookupURL u)) resp.Body).1,
            (extract (URL.String (lookupURL u)) resp.Body).2, [URL.String (lookupURL u)]⟩ := by
  have hlen : (Split (setDiscovery u).Path '/').length ≠ 0 :=
    Nat.pos_iff_ne_zero.mp (Split_length_pos _ _)
  simp only [getRepoURL, hf, hp, hlen, if_false, lookupURL]

theorem extract_ok (us : String) (body : List Token) (strs : List String)
    (hs : getMetaGoImportContent body = (strs, none)) :
    extract us body =
      if strs.length ≥ 3 ∧ strs.getD 1 "" ≠ "git" then
        ("", some (.errorString (us ++ ": unsupported vcs " ++ strs.getD 1 "")))
      else if strs.length ≥ 3 then (strs.getD 2 "", none)
      else ("", some (.errorString "unable to extract ")) := by
  simp only [extract, hs]

/-- C2: when the fetch returns status 200 and the body scans successfully,
`getRepoURL` returns a repository URL exactly when the scanned list has at
least 3 fields with second field `git`, the URL being then the third field; with
fewer than 3 fields it fails with the generic extraction error. -/
theorem C2_git_returns_third_field (get : Transport) (line m : String) (rest : List String)
    (u : URL) (body : List Token) (strs : List String)
    (hf : Fields line = m :: rest) (hp : Parse m = .ok u)
    (hg : get (URL.String (lookupURL u)) = .ok ⟨200, body⟩)
    (hs : getMetaGoImportContent body = (strs, none)) :
    ((getRepoURL get line).err = none ↔ (3 ≤ strs.length ∧ strs[1]? = some "git")) ∧
    ((getRepoURL get line).err = none → strs[2]? = some (getRepoURL get line).url) ∧
    (strs.length < 3 →
      (getRepoURL get line).url = "" ∧
      (getRepoURL get line).err = some (.errorString "unable to extract ")) := by
  rw [getRepoURL_eq get line m rest u hf hp, hg]
  simp only [ne_eq, not_true_eq_false, if_false, extract_ok _ _ _ hs]
  by_cases h3 : 3 ≤ strs.length
  · have h1 : strs[1]? = some (strs.getD 1 "") := by
      rw [List.getD_eq_getElem?_getD, List.getElem?_eq_getElem (by omega)]; rfl
    have h2 : strs[2]? = some (strs.getD 2 "") := by
      rw [List.getD_eq_getElem?_getD, List.getElem?_eq_getElem (by omega)]; rfl
    have hl : ¬ strs.length < 3 := by omega
    generalize strs.getD 1 "" = f1 at h1 ⊢
    generalize strs.getD 2 "" = f2 at h2 ⊢
    by_cases hgit : f1 = "git"
    · rw [if_neg (by simp only [hgit]; tauto), if_pos h3]
      refine ⟨⟨fun _ => ⟨h3, hgit ▸ h1⟩, fun _ => rfl⟩, fun _ => h2, fun h => absurd h hl⟩
    · rw [if_pos ⟨h3, hgit⟩]
      refine ⟨⟨fun h => (by cases h), fun h => ?_⟩, fun h => (by cases h), fun h => absurd h hl⟩
      rw [h1] at h
      exact absurd (Option.some.inj h.2) hgit
  · have hl : strs.length < 3 := by omega
    rw [if_neg (fun h => h3 h.1), if_neg h3]
    exact ⟨⟨fun h => (by cases h), fun h => absurd h.1 h3⟩, fun h => (by cases h), fun _ => ⟨rfl, rfl⟩⟩

/-- C2, witness: the line `example.com/pkg v1.2.3`, answered with status 200
and the documented meta tag, resolves to `https://example.com/pkg.git`. -/
theorem C2_git_returns_third_field_witness :
    (getRepoURL
        (exampleTransport 200
          [metaTag [("name", "go-import"), ("content", "example.com/pkg git https://example.com/pkg.git")]])
        "example.com/pkg v1.2.3").err = none ∧
    (getRepoURL
        (exampleTransport 200
          [metaTag [("name", "go-import"), ("content", "example.com/pkg git https://example.com/pkg.git")]])
        "example.com/pkg v1.2.3").url = "https://example.com/pkg.git" := by
  have h := C2_git_returns_third_field
    (exampleTransport 200
      [metaTag [("name", "go-import"), ("content", "example.com/pkg git https://example.com/pkg.git")]])
    "example.com/pkg v1.2.3" "example.com/pkg" ["v1.2.3"] { Path := "example.com/pkg" }
    [metaTag [("name", "go-import"), ("content", "example.com/pkg git https://example.com/pkg.git")]]
    ["example.com/pkg", "git", "https://example.com/pkg.git"]
    (by decide) (by rfl) (by rfl) (by decide)
  have he := h.1.mpr ⟨by decide, by decide⟩
  refine ⟨he, ?_⟩
  have h2 := h.2.1 he
  simpa using h2.symm

/-- C5: with status 200 and at least 3 scanned fields whose second field is
not exactly `git`, `getRepoURL` returns no URL and fails with the message made
of the lookup URL, `: unsupported vcs ` and that second field. -/
theorem C5_unsupported_vcs (get : Transport) (line m : String) (rest : List String)
    (u : URL) (body : List Token) (strs : List String) (vcs : String)
    (hf : Fields line = m :: rest) (hp : Parse m = .ok u)
    (hg : get (URL.String (lookupURL u)) = .ok ⟨200, body⟩)
    (hs : getMetaGoImportContent body = (strs, none))
    (h3 : 3 ≤ strs.length) (h1 : strs[1]? = some vcs) (hv : vcs ≠ "git") :
    getRepoURL get line =
      ⟨"", some (.errorString (URL.String (lookupURL u) ++ ": unsupported vcs " ++ vcs)),
        [URL.String (lookupURL u)]⟩ := by
  have hd : strs.getD 1 "" = vcs := by
    rw [List.getD_eq_getElem?_getD, h1]; rfl
  rw [getRepoURL_eq get line m rest u hf hp, hg]
  simp only [ne_eq, not_true_eq_false, if_false, extract_ok _ _ _ hs, hd]
  simp [h3, hv]

/-- C5, witness: the kinds `svn` and `Git` are both refused, the latter because
the comparison with `git` is case-sensitive. -/
theorem C5_unsupported_vcs_witness :
    getRepoURL
        (exampleTransport 200 [metaTag [("name", "go-import"), ("content", "example.com/pkg svn https://example.com/svn")]])
        "example.com/pkg v1.2.3" =
      ⟨"", some (.errorString "https://example.com/pkg?go-get=1: unsupported vcs svn"),
        ["https://example.com/pkg?go-get=1"]⟩ ∧
    getRepoURL
        (exampleTransport 200 [metaTag [("name", "go-import"), ("content", "example.com/pkg Git https://example.com/pkg.git")]])
        "example.com/pkg v1.2.3" =
      ⟨"", some (.errorString "https://example.com/pkg?go-get=1: unsupported vcs Git"),
        ["https://example.com/pkg?go-get=1"]⟩ :=
  ⟨C5_unsupported_vcs _ "example.com/pkg v1.2.3" "example.com/pkg" ["v1.2.3"]
      { Path := "example.com/pkg" }
      [metaTag [("name", "go-import"), ("content", "example.com/pkg svn https://example.com/svn")]]
      ["example.com/pkg", "svn", "https://example.com/svn"] "svn"
      (by decide) (by rfl) (by rfl) (by decide) (by decide) (by decide) (by decide),
    C5_unsupported_vcs _ "example.com/pkg v1.2.3" "example.com/pkg" ["v1.2.3"]
      { Path := "example.com/pkg" }
      [metaTag [("name", "go-import"), ("content", "example.com/pkg Git https://example.com/pkg.git")]]
      ["example.com/pkg", "Git", "https://example.com/pkg.git"] "Git"
      (by decide) (by rfl) (by rfl) (by decide) (by decide) (by decide) (by decide)⟩

theorem digitChar_eq (d : Nat) (h : d < 10) : Nat.digitChar d = Char.ofNat (48 + d) := by
  interval_cases d <;> rfl

theorem toDigitsCore_eq (fuel n : Nat) (ds : List Char) (hn : 0 < n) (hf : n < fuel) :
    Nat.toDigitsCore 10 fuel n ds =
      ((Nat.digits 10 n).reverse.map fun d => Char.ofNat (48 + d)) ++ ds := by
  induction fuel generalizing n ds with
  | zero => omega
  | succ fuel ih =>
    rw [Nat.toDigitsCore, Nat.digits_def' (by omega) hn, digitChar_eq _ (Nat.mod_lt _ (by omega))]
    by_cases h0 : n / 10 = 0
    · simp [h0]
    · rw [if_neg h0, ih (n / 10) _ (Nat.pos_of_ne_zero h0) (by omega)]
      simp

theorem repr_data (n : Nat) :
    (Nat.repr n).data =
      if n = 0 then ['0'] else (Nat.digits 10 n).reverse.map fun d => Char.ofNat (48 + d) := by
  by_cases h : n = 0
  · subst h
    rfl
  · rw [if_neg h]
    have := toDigitsCore_eq (n + 1) n [] (Nat.pos_of_ne_zero h) (by omega)
    simpa [Nat.repr, Nat.toDigits, List.asString] using this

theorem formatInt_eq_decimalNumeral (n : Int) : formatInt n = decimalNumeral n := by
  apply String.ext
  cases n with
  | ofNat m =>
    have h1 : ¬ ((m : Int) < 0) := by omega
    simp only [formatInt, decimalNumeral, repr_data, List.nil_append, Int.natAbs_ofNat,
      Int.ofNat_eq_coe, Int.natCast_eq_zero, if_neg h1]
  | negSucc m =>
    have h1 : Int.negSucc m < 0 := Int.negSucc_lt_zero m
    have h2 : Int.negSucc m ≠ 0 := by omega
    have h3 : m + 1 ≠ 0 := by omega
    simp only [formatInt, decimalNumeral, String.data_append, repr_data, if_pos h1, if_neg h2,
      if_neg h3, Int.natAbs_negSucc, Nat.succ_eq_add_one]

/-- C8: when the first field parses and the fetch returns a status other than
200, `getRepoURL` fails with the message made of the decimal numeral of the
status code, `: unable to GET ` and the lookup URL, whatever the body holds. -/
theorem C8_http_status_error (get : Transport) (line m : String) (rest : List String)
    (u : URL) (status : Int) (body : List Token)
    (hf : Fields line = m :: rest) (hp : Parse m = .ok u)
    (hg : get (URL.String (lookupURL u)) = .ok ⟨status, body⟩) (hs : status ≠ 200) :
    getRepoURL get line =
      ⟨"", some (.errorString
          (decimalNumeral status ++ ": unable to GET " ++ URL.String (lookupURL u))),
        [URL.String (lookupURL u)]⟩ := by
  rw [getRepoURL_eq get line m rest u hf hp, hg, ← formatInt_eq_decimalNumeral]
  simp [hs]

/-- C8, witness: status 404 and status 500 for `example.com/pkg v1.2.3`, the
first with a body that holds a valid go-import tag. -/
theorem C8_http_status_error_witness :
    getRepoURL
        (exampleTransport 404
          [metaTag [("name", "go-import"), ("content", "example.com/pkg git https://example.com/pkg.git")]])
        "example.com/pkg v1.2.3" =
      ⟨"", some (.errorString "404: unable to GET https://example.com/pkg?go-get=1"),
        ["https://example.com/pkg?go-get=1"]⟩ ∧
    getRepoURL (exampleTransport 500 []) "example.com/pkg v1.2.3" =
      ⟨"", some (.errorString "500: unable to GET https://example.com/pkg?go-get=1"),
        ["https://example.com/pkg?go-get=1"]⟩ := by
  constructor
  · rw [C8_http_status_error _ "example.com/pkg v1.2.3" "example.com/pkg" ["v1.2.3"]
      { Path := "example.com/pkg" } 404
      [metaTag [("name", "go-import"), ("content", "example.com/pkg git https://example.com/pkg.git")]]
      (by decide) (by rfl) (by rfl) (by decide), ← formatInt_eq_decimalNumeral]
    rfl
  · rw [C8_http_status_error _ "example.com/pkg v1.2.3" "example.com/pkg" ["v1.2.3"]
      { Path := "example.com/pkg" } 500 [] (by decide) (by rfl) (by rfl) (by decide),
      ← formatInt_eq_decimalNumeral]
    rfl

/-- C9: a module line has zero fields exactly when it is empty or made only of
white space, and for every such line `getRepoURL` returns the empty string
and the "not a module" error without passing any URL to the transport,
whatever the transport is. -/
theorem C9_not_a_module (line : String) :
    (Fields line = [] ↔ ∀ c ∈ line.data, isSpace c = true) ∧
    (Fields line = [] → ∀ get : Transport,
      getRepoURL get line = ⟨"", some (.errorString ("not a module: " ++ line)), []⟩) := by
  refine ⟨Fields_eq_nil line, ?_⟩
  intro h get
  simp only [getRepoURL, h]

/-- C9, witness: a line of blanks, a tab and a newline. -/
theorem C9_not_a_module_witness :
    getRepoURL (exampleTransport 200 []) "  \t \n" =
      ⟨"", some (.errorString "not a module:   \t \n"), []⟩ :=
  (C9_not_a_module "  \t \n").2 (by decide) _

theorem splitAux_append (sep : Char) (a rest cur : List Char) (ha : sep ∉ a) :
    splitAux sep (a ++ rest) cur = splitAux sep rest (a.reverse ++ cur) := by
  induction a generalizing cur with
  | nil => rfl
  | cons c cs ih =>
    have hc : c ≠ sep := fun h => ha (h ▸ List.mem_cons_self _ _)
    have hcs : sep ∉ cs := fun h => ha (List.mem_cons_of_mem _ h)
    rw [List.cons_append, splitAux, if_neg hc, ih _ hcs]
    simp

theorem splitAux_no_sep (sep : Char) (l cur : List Char) (hcur : sep ∉ cur) :
    ∀ s ∈ splitAux sep l cur, sep ∉ s.data := by
  induction l generalizing cur with
  | nil =>
    intro s hs
    simp only [splitAux, List.mem_singleton] at hs
    subst hs
    simpa using hcur
  | cons c cs ih =>
    intro s hs
    rw [splitAux] at hs
    by_cases hc : c = sep
    · rw [if_pos hc, List.mem_cons] at hs
      rcases hs with hs | hs
      · subst hs
        simpa using hcur
      · exact ih [] (by simp) s hs
    · rw [if_neg hc] at hs
      refine ih (c :: cur) ?_ s hs
      intro h
      rcases List.mem_cons.mp h with h | h
      · exact hc h.symm
      · exact hcur h

theorem splitAux_Join (a : String) (r : List String) (cur : List Char)
    (h : ∀ s ∈ a :: r, '/' ∉ s.data) :
    splitAux '/' (Join (a :: r) "/").data cur = String.mk (cur.reverse ++ a.data) :: r := by
  induction r generalizing a cur with
  | nil =>
    have ha := h a (List.mem_cons_self _ _)
    have := splitAux_append '/' a.data [] cur ha
    rw [List.append_nil] at this
    simp [Join, this, splitAux]
  | cons b r ih =>
    have ha := h a (List.mem_cons_self _ _)
    have hr : ∀ s ∈ b :: r, '/' ∉ s.data := fun s hs => h s (List.mem_cons_of_mem _ hs)
    have hd : (Join (a :: b :: r) "/").data = a.data ++ '/' :: (Join (b :: r) "/").data := by
      simp [Join, String.data_append]
    rw [hd, splitAux_append '/' _ _ _ ha, splitAux, if_pos rfl, ih b [] hr]
    simp

theorem Split_Join_take (p : String) (n : Nat) (hn : 0 < n) :
    Split (Join ((Split p '/').take n) "/") '/' = (Split p '/').take n := by
  have hne : (Split p '/').take n ≠ [] := by
    intro h
    have hl := congrArg List.length h
    have := Split_length_pos p '/'
    simp only [List.length_take, List.length_nil] at hl
    omega
  have hsep : ∀ s ∈ (Split p '/').take n, '/' ∉ s.data := fun s hs =>
    splitAux_no_sep '/' p.data [] (by simp) s (List.mem_of_mem_take hs)
  cases hL : (Split p '/').take n with
  | nil => exact absurd hL hne
  | cons a r =>
    rw [hL] at hsep
    rw [Split, splitAux_Join a r [] hsep]
    simp

theorem setDiscovery_fields (u : URL) :
    (setDiscovery u).Scheme = "https" ∧ (setDiscovery u).RawQuery = "go-get=1" ∧
      (setDiscovery u).Path = u.Path := ⟨rfl, by rfl, rfl⟩

/-- C4: when the first segment of the parsed path equals `github.com` without
regard to case and the path has more than 3 segments, the path of the lookup
URL is the first 3 segments joined by `/`, and splits into exactly those 3
segments; in every other case it is the parsed path unmodified. -/
theorem C4_github_truncation (get : Transport) (line m : String) (rest : List String) (u : URL)
    (hf : Fields line = m :: rest) (hp : Parse m = .ok u) :
    (getRepoURL get line).fetched = [URL.String (lookupURL u)] ∧
    (EqualFold ((Split u.Path '/').headD "") "github.com" = true → 3 < (Split u.Path '/').length →
      (lookupURL u).Path = Join ((Split u.Path '/').take 3) "/" ∧
      Split (lookupURL u).Path '/' = (Split u.Path '/').take 3 ∧
      (Split (lookupURL u).Path '/').length = 3) ∧
    (EqualFold ((Split u.Path '/').headD "") "github.com" = false ∨ (Split u.Path '/').length ≤ 3 →
      (lookupURL u).Path = u.Path) := by
  refine ⟨?_, ?_, ?_⟩
  · rw [getRepoURL_eq get line m rest u hf hp]
    cases get (URL.String (lookupURL u)) with
    | error e => rfl
    | ok resp => simp only []; split <;> rfl
  · intro he hl
    have hpath : (lookupURL u).Path = Join ((Split u.Path '/').take 3) "/" := by
      have h1 : (setDiscovery u).Path = u.Path := rfl
      simp only [lookupURL, truncatePath, h1, he, if_true, gt_iff_lt, hl]
    refine ⟨hpath, ?_, ?_⟩
    · rw [hpath, Split_Join_take u.Path 3 (by omega)]
    · rw [hpath, Split_Join_take u.Path 3 (by omega), List.length_take]
      omega
  · intro h
    have h1 : (setDiscovery u).Path = u.Path := rfl
    rcases h with h | h
    · simp only [lookupURL, truncatePath, h1, h]
      rfl
    · have hl : ¬ 3 < (Split u.Path '/').length := by omega
      simp only [lookupURL, truncatePath, h1, gt_iff_lt, hl, if_false]
      split <;> rfl

/-- C4, witness: a sub-package path on `GitHub.com` collapses to host, owner
and repository; the same path on another host is fetched whole. -/
theorem C4_github_truncation_witness :
    (getRepoURL (exampleTransport 200 []) "GitHub.com/owner/repo/sub/pkg v1.0.0").fetched =
      ["https://GitHub.com/owner/repo?go-get=1"] ∧
    (getRepoURL (exampleTransport 200 []) "gitlab.com/owner/repo/sub/pkg v1.0.0").fetched =
      ["https://gitlab.com/owner/repo/sub/pkg?go-get=1"] :=
  ⟨(C4_github_truncation (exampleTransport 200 []) "GitHub.com/owner/repo/sub/pkg v1.0.0"
      "GitHub.com/owner/repo/sub/pkg" ["v1.0.0"] { Path := "GitHub.com/owner/repo/sub/pkg" }
      (by decide) (by rfl)).1,
    (C4_github_truncation (exampleTransport 200 []) "gitlab.com/owner/repo/sub/pkg v1.0.0"
      "gitlab.com/owner/repo/sub/pkg" ["v1.0.0"] { Path := "gitlab.com/owner/repo/sub/pkg" }
      (by decide) (by rfl)).1⟩

/-! ## The lookup URL as a string -/

theorem noQueryMark_append {s t : String} (hs : noQueryMark s) (ht : noQueryMark t) :
    noQueryMark (s ++ t) := by
  intro c hc
  rw [String.data_append, List.mem_append] at hc
  exact hc.elim (hs c) (ht c)

theorem noQueryMark_empty : noQueryMark "" := by
  intro c hc
  simp at hc

theorem noQueryMark_ite {p : Prop} [Decidable p] {a b : String} (ha : noQueryMark a)
    (hb : noQueryMark b) : noQueryMark (if p then a else b) := by
  split <;> assumption

theorem upperhex_safe (n : Nat) : upperhex n ≠ '?' ∧ upperhex n ≠ '#' := by
  by_cases h : n < 16
  · interval_cases n <;> decide
  · have : upperhex n = '0' := by
      unfold upperhex
      rw [List.getD_eq_default]
      simp only [not_lt] at h
      exact h
    rw [this]
    decide

theorem escape_safe (s : String) (mode : encoding)
    (hq : shouldEscape '?' mode = true) (hh : shouldEscape '#' mode = true) :
    noQueryMark (escape s mode) := by
  intro d hd
  simp only [escape, List.mem_flatMap] at hd
  obtain ⟨c, _, hd⟩ := hd
  unfold escapeChar at hd
  by_cases hc : shouldEscape c mode = true
  · rw [if_pos hc] at hd
    by_cases hsp : c = ' ' ∧ mode = .encodeQueryComponent
    · rw [if_pos hsp] at hd
      simp only [List.mem_singleton] at hd
      subst hd
      decide
    · rw [if_neg hsp] at hd
      simp only [List.mem_flatMap, List.mem_cons, List.mem_singleton] at hd
      obtain ⟨b, _, hd⟩ := hd
      rcases hd with hd | hd | hd | hd
      · subst hd; decide
      · subst hd; exact upperhex_safe _
      · subst hd; exact upperhex_safe _
      · simp at hd
  · rw [if_neg hc] at hd
    simp only [List.mem_singleton] at hd
    subst hd
    constructor
    · intro h; rw [h] at hc; exact hc hq
    · intro h; rw [h] at hc; exact hc hh

theorem EscapedPath_safe (u : URL) : noQueryMark (URL.EscapedPath u) := by
  unfold URL.EscapedPath
  split
  · rename_i h
    intro c hc
    have hv := h.2.1
    simp only [validEncoded, List.all_eq_true] at hv
    have := hv c hc
    constructor
    · intro hq; subst hq; revert this; decide
    · intro hq; subst hq; revert this; decide
  · split
    · intro c hc
      have : c = '*' := by simpa using hc
      subst this
      decide
    · exact escape_safe _ _ (by decide) (by decide)

theorem lit_safe_slashes : noQueryMark "//" ∧ noQueryMark "/" ∧ noQueryMark "./" ∧
    noQueryMark "@" ∧ noQueryMark ":" := by
  refine ⟨?_, ?_, ?_, ?_, ?_⟩ <;> intro c hc <;> revert c <;> decide

theorem Userinfo_safe (ui : Userinfo) : noQueryMark (Userinfo.String ui) := by
  unfold Userinfo.String
  exact noQueryMark_append (escape_safe _ _ (by decide) (by decide))
    (noQueryMark_ite
      (noQueryMark_append lit_safe_slashes.2.2.2.2 (escape_safe _ _ (by decide) (by decide)))
      noQueryMark_empty)

theorem hierPart_safe (u : URL) : noQueryMark (URL.hierPart u) := by
  unfold URL.hierPart
  simp only []
  refine noQueryMark_append (noQueryMark_append (noQueryMark_append ?_ ?_) ?_) (EscapedPath_safe u)
  · refine noQueryMark_ite (noQueryMark_ite noQueryMark_empty ?_) noQueryMark_empty
    refine noQueryMark_append (noQueryMark_append ?_ ?_) ?_
    · exact noQueryMark_ite lit_safe_slashes.1 noQueryMark_empty
    · cases u.User with
      | none => exact noQueryMark_empty
      | some ui => exact noQueryMark_append (Userinfo_safe ui) lit_safe_slashes.2.2.2.1
    · exact noQueryMark_ite (escape_safe _ _ (by decide) (by decide)) noQueryMark_empty
  · exact noQueryMark_ite lit_safe_slashes.2.1 noQueryMark_empty
  · exact noQueryMark_ite lit_safe_slashes.2.2.1 noQueryMark_empty

theorem cutAux_fst_not_mem (sep : Char) (l : List Char) : sep ∉ (cutAux sep l).1 := by
  induction l with
  | nil => simp [cutAux]
  | cons c cs ih =>
    rw [cutAux]
    by_cases hc : c = sep
    · simp [hc]
    · simp only [hc, if_false, List.mem_cons, not_or]
      exact ⟨fun h => hc h.symm, ih⟩

theorem cutAux_fst_subset (sep : Char) (l : List Char) : ∀ c ∈ (cutAux sep l).1, c ∈ l := by
  induction l with
  | nil => simp [cutAux]
  | cons c cs ih =>
    intro d hd
    rw [cutAux] at hd
    by_cases hc : c = sep
    · simp [hc] at hd
    · simp only [hc, if_false, List.mem_cons] at hd
      rcases hd with hd | hd
      · exact hd ▸ List.mem_cons_self _ _
      · exact List.mem_cons_of_mem _ (ih d hd)

theorem getSchemeAux_subset (raw l pre s r : List Char) (hl : ∀ c ∈ l, c ∈ raw)
    (h : getSchemeAux raw l pre = some (s, r)) : ∀ c ∈ r, c ∈ raw := by
  induction l generalizing pre with
  | nil =>
    simp only [getSchemeAux, Option.some.injEq, Prod.mk.injEq] at h
    rw [← h.2]
    exact fun c hc => hc
  | cons c cs ih =>
    have hcs : ∀ d ∈ cs, d ∈ raw := fun d hd => hl d (List.mem_cons_of_mem _ hd)
    rw [getSchemeAux] at h
    split at h
    · exact ih _ hcs h
    · split at h
      · split at h
        · simp only [Option.some.injEq, Prod.mk.injEq] at h
          rw [← h.2]
          exact fun c hc => hc
        · exact ih _ hcs h
      · split at h
        · split at h
          · cases h
          · simp only [Option.some.injEq, Prod.mk.injEq] at h
            rw [← h.2]
            exact hcs
        · simp only [Option.some.injEq, Prod.mk.injEq] at h
          rw [← h.2]
          exact fun c hc => hc

theorem dropLast_no_mark (l : List Char) (h1 : l.getLast? = some '?') (h2 : l.count '?' = 1) :
    '?' ∉ l.dropLast := by
  have hl : l = l.dropLast ++ ['?'] := by
    have hne : l ≠ [] := by
      intro h
      rw [h] at h1
      simp at h1
    have := List.dropLast_append_getLast hne
    rw [List.getLast?_eq_getLast _ hne] at h1
    rw [Option.some.inj h1] at this
    exact this.symm
  rw [hl, List.count_append] at h2
  simp only [List.count_cons_self, List.count_nil] at h2
  exact List.count_eq_zero.mp (by omega)

theorem setPath_Opaque (v u : URL) (p : String) (h : URL.setPath v p = .ok u) :
    u.Opaque = v.Opaque := by
  unfold URL.setPath at h
  split at h
  · cases h
  · cases h
    rfl

theorem setFragment_Opaque (v u : URL) (f : String) (h : URL.setFragment v f = .ok u) :
    u.Opaque = v.Opaque := by
  unfold URL.setFragment at h
  split at h
  · cases h
  · cases h
    rfl

theorem parseHier_Opaque (url u : URL) (rest : List Char) (h : parseHier url rest = .ok u)
    (h0 : url.Opaque = "") (hrest : noQueryMark (String.mk rest)) : noQueryMark u.Opaque := by
  unfold parseHier at h
  split at h
  · cases h
    exact hrest
  · split at h
    · cases h
    · split at h
      · simp only [] at h
        split at h
        · cases h
        · rw [setPath_Opaque _ _ _ h]
          simp only [h0]
          exact noQueryMark_empty
      · split at h
        · rw [setPath_Opaque _ _ _ h]
          simp only [h0]
          exact noQueryMark_empty
        · rw [setPath_Opaque _ _ _ h, h0]
          exact noQueryMark_empty

theorem parse_Opaque (raw : List Char) (u : URL) (h : parse raw = .ok u) (hr : '#' ∉ raw) :
    noQueryMark u.Opaque := by
  unfold parse at h
  split at h
  · cases h
  split at h
  · cases h
    exact noQueryMark_empty
  split at h
  · cases h
  · rename_i scheme rest0 hsch
    have hsub : ∀ c ∈ rest0, c ∈ raw :=
      getSchemeAux_subset raw raw [] scheme rest0 (fun c hc => hc) hsch
    simp only [] at h
    split at h
    · rename_i hforce
      refine parseHier_Opaque _ u _ h rfl ?_
      intro c hc
      refine ⟨fun hq => ?_, fun hq => ?_⟩
      · subst hq
        exact dropLast_no_mark rest0 hforce.1 hforce.2 hc
      · subst hq
        exact hr (hsub _ (List.mem_of_mem_dropLast hc))
    · refine parseHier_Opaque _ u _ h rfl ?_
      intro c hc
      refine ⟨fun hq => ?_, fun hq => ?_⟩
      · subst hq
        exact cutAux_fst_not_mem '?' rest0 hc
      · subst hq
        exact hr (hsub _ (cutAux_fst_subset '?' rest0 _ hc))

theorem Parse_Opaque (m : String) (u : URL) (h : Parse m = .ok u) : noQueryMark u.Opaque := by
  unfold Parse at h
  simp only [] at h
  have hno := cutAux_fst_not_mem '#' m.data
  split at h
  · cases h
  · rename_i url hurl
    have ho := parse_Opaque _ url hurl hno
    split at h
    · cases h
      exact ho
    · split at h
      · cases h
      · rename_i url2 hf
        cases h
        rw [setFragment_Opaque _ _ _ hf]
        exact ho

theorem lookupURL_fields (u : URL) :
    (lookupURL u).Scheme = "https" ∧ (lookupURL u).RawQuery = "go-get=1" ∧
      (lookupURL u).Opaque = u.Opaque ∧ (lookupURL u).Fragment = u.Fragment := by
  unfold lookupURL truncatePath
  split
  · split
    · exact ⟨rfl, by rfl, rfl, rfl⟩
    · exact ⟨rfl, by rfl, rfl, rfl⟩
  · exact ⟨rfl, by rfl, rfl, rfl⟩

/-- C3: whenever the first field parses, the URL that `getRepoURL` fetches has
scheme `https` and query `go-get=1` whatever the field carried: as a string it
is `https:`, then text free of `?` and `#`, then `?go-get=1`, then nothing or a
`#` fragment. For the module path `example.com/pkg` it is
`https://example.com/pkg?go-get=1`. -/
theorem C3_lookup_scheme_and_query :
    (∀ (get : Transport) (line m : String) (rest : List String) (u : URL),
      Fields line = m :: rest → Parse m = .ok u →
      (getRepoURL get line).fetched = [URL.String (lookupURL u)] ∧
      (lookupURL u).Scheme = "https" ∧ (lookupURL u).RawQuery = "go-get=1" ∧
      ∃ mid frag : String,
        URL.String (lookupURL u) = "https:" ++ mid ++ "?go-get=1" ++ frag ∧
        '?' ∉ mid.data ∧ '#' ∉ mid.data ∧ (frag = "" ∨ frag.data.head? = some '#')) ∧
    (∀ get : Transport,
      (getRepoURL get "example.com/pkg").fetched = ["https://example.com/pkg?go-get=1"]) := by
  have key : ∀ (get : Transport) (line m : String) (rest : List String) (u : URL),
      Fields line = m :: rest → Parse m = .ok u →
      (getRepoURL get line).fetched = [URL.String (lookupURL u)] := by
    intro get line m rest u hf hp
    rw [getRepoURL_eq get line m rest u hf hp]
    cases get (URL.String (lookupURL u)) with
    | error e => rfl
    | ok resp => simp only []; split <;> rfl
  refine ⟨?_, ?_⟩
  · intro get line m rest u hf hp
    obtain ⟨hs, hq, ho, _⟩ := lookupURL_fields u
    refine ⟨key get line m rest u hf hp, hs, hq, ?_⟩
    refine ⟨if (lookupURL u).Opaque ≠ "" then (lookupURL u).Opaque else URL.hierPart (lookupURL u),
      if (lookupURL u).Fragment ≠ "" then "#" ++ URL.EscapedFragment (lookupURL u) else "", ?_, ?_, ?_, ?_⟩
    · have h1 : (lookupURL u).Scheme ≠ "" := by rw [hs]; decide
      have h2 : (lookupURL u).ForceQuery = true ∨ (lookupURL u).RawQuery ≠ "" :=
        Or.inr (by rw [hq]; decide)
      have h3 : ("https" : String) ≠ "" := by decide
      have h4 : (lookupURL u).ForceQuery = true ∨ ("go-get=1" : String) ≠ "" := Or.inr (by decide)
      simp only [URL.String, hs, hq, if_pos h3, if_pos h4]
      rfl
    · have hm : noQueryMark
          (if (lookupURL u).Opaque ≠ "" then (lookupURL u).Opaque else URL.hierPart (lookupURL u)) :=
        noQueryMark_ite (ho ▸ Parse_Opaque m u hp) (hierPart_safe _)
      exact fun h => (hm _ h).1 rfl
    · have hm : noQueryMark
          (if (lookupURL u).Opaque ≠ "" then (lookupURL u).Opaque else URL.hierPart (lookupURL u)) :=
        noQueryMark_ite (ho ▸ Parse_Opaque m u hp) (hierPart_safe _)
      exact fun h => (hm _ h).2 rfl
    · split
      · right
        simp [String.data_append]
      · left
        rfl
  · intro get
    exact key get "example.com/pkg" "example.com/pkg" [] { Path := "example.com/pkg" }
      (by decide) (by rfl)

/-- C3, witness: a first field with scheme `http`, a query and a fragment is
looked up over `https` with the query `go-get=1` alone. -/
theorem C3_lookup_scheme_and_query_witness :
    (getRepoURL (exampleTransport 200 []) "http://example.com/pkg?a=b&go-get=0#top v1").fetched =
      ["https://example.com/pkg?go-get=1#top"] :=
  (C3_lookup_scheme_and_query.1 (exampleTransport 200 []) "http://example.com/pkg?a=b&go-get=0#top v1"
    "http://example.com/pkg?a=b&go-get=0#top" ["v1"]
    { Scheme := "http", Host := "example.com", Path := "/pkg", RawQuery := "a=b&go-get=0",
      Fragment := "top" }
    (by decide) (by rfl)).1

/-! ## `Which` -/

theorem Join_cons_of_ne (a : String) (L : List String) (sep : String) (h : L ≠ []) :
    Join (a :: L) sep = a ++ sep ++ Join L sep := by
  cases L with
  | nil => exact absurd rfl h
  | cons b r => rfl

theorem Join_splitAux (l cur : List Char) :
    Join (splitAux '/' l cur) "/" = String.mk (cur.reverse ++ l) := by
  induction l generalizing cur with
  | nil => simp [splitAux, Join]
  | cons c cs ih =>
    rw [splitAux]
    by_cases hc : c = '/'
    · rw [if_pos hc, Join_cons_of_ne _ _ _ (splitAux_ne_nil _ _ _), ih []]
      apply String.ext
      simp [String.data_append, hc]
    · rw [if_neg hc, ih]
      simp

theorem Join_Split (p : String) : Join (Split p '/') "/" = p := by
  rw [Split, Join_splitAux]
  rfl

theorem splitAux_snoc (sep : Char) (l r cur : List Char) :
    splitAux sep (l ++ sep :: r) cur = splitAux sep l cur ++ splitAux sep r [] := by
  induction l generalizing cur with
  | nil => simp [splitAux]
  | cons c cs ih =>
    rw [List.cons_append, splitAux, splitAux]
    by_cases hc : c = sep
    · rw [if_pos hc, if_pos hc, ih]
      rfl
    · rw [if_neg hc, if_neg hc, ih]

theorem Split_append_name (p prog : String) (h : '/' ∉ prog.data) :
    Split (p ++ "/" ++ prog) '/' = Split p '/' ++ [prog] := by
  have hd : (p ++ "/" ++ prog).data = p.data ++ '/' :: prog.data := by
    simp [String.data_append]
  rw [Split, hd, splitAux_snoc]
  have := splitAux_append '/' prog.data [] [] h
  rw [List.append_nil] at this
  rw [this]
  simp [splitAux, Split]

theorem cleanElems_real (rooted : Bool) (elems out : List String)
    (h : ∀ e ∈ elems, isRealElem e = true) :
    cleanElems rooted elems out = elems.reverse ++ out := by
  induction elems generalizing out with
  | nil => rfl
  | cons e rest ih =>
    have he := h e (List.mem_cons_self _ _)
    simp only [isRealElem, Bool.and_eq_true, bne_iff_ne, ne_eq] at he
    have h1 : ¬ (e = "" ∨ e = ".") := by tauto
    rw [cleanElems.eq_def]
    simp only [if_neg h1, if_neg he.2]
    rw [ih _ fun x hx => h x (List.mem_cons_of_mem _ hx)]
    simp

theorem Join_snoc (L : List String) (a : String) (h : L ≠ []) :
    Join (L ++ [a]) "/" = Join L "/" ++ "/" ++ a := by
  induction L with
  | nil => exact absurd rfl h
  | cons b r ih =>
    by_cases hr : r = []
    · subst hr
      rfl
    · rw [List.cons_append, Join_cons_of_ne b (r ++ [a]) _ (by simp), ih hr,
        Join_cons_of_ne b r _ hr]
      simp [String.append_assoc]

theorem filepathJoin_clean (p prog : String) (hp : isCleanDir p = true)
    (hn : isPlainName prog = true) : filepathJoin p prog = p ++ "/" ++ prog := by
  have hreal : isRealElem prog = true := by
    simp only [isPlainName, Bool.and_eq_true] at hn
    exact hn.1
  have hns : '/' ∉ prog.data := by
    simp only [isPlainName, Bool.and_eq_true] at hn
    simpa using hn.2
  have hsplit := Split_append_name p prog hns
  have hjoin := Join_Split p
  unfold isCleanDir at hp
  cases hS : Split p '/' with
  | nil => exact absurd hS (splitAux_ne_nil _ _ _)
  | cons a rest =>
    rw [hS] at hp hsplit hjoin
    simp only [] at hp
    have hne : (p ++ "/" ++ prog) ≠ "" := by
      intro h
      have := congrArg String.data h
      simp [String.data_append] at this
    by_cases ha : a = ""
    · rw [if_pos ha] at hp
      simp only [Bool.and_eq_true, Bool.not_eq_true', List.isEmpty_eq_false, List.all_eq_true] at hp
      subst ha
      have hrest : rest ≠ [] := by
        intro h
        rw [h] at hp
        simp at hp
      have hpj : p = "/" ++ Join rest "/" := by
        rw [← hjoin, Join_cons_of_ne _ _ _ hrest]
        rfl
      have hpne : p ≠ "" := by
        intro h
        rw [h] at hpj
        have := congrArg String.data hpj
        simp [String.data_append] at this
      have hrooted : (p ++ "/" ++ prog).data.head? = some '/' := by
        rw [hpj]
        simp [String.data_append]
      have hall : ∀ e ∈ rest ++ [prog], isRealElem e = true := by
        intro e he
        rcases List.mem_append.mp he with he | he
        · exact hp.2 e he
        · rw [List.mem_singleton.mp he]; exact hreal
      have hce : cleanElems true ("" :: (rest ++ [prog])) [] = (rest ++ [prog]).reverse := by
        rw [cleanElems.eq_def]
        simp only [true_or, if_true]
        rw [cleanElems_real _ _ _ hall]
        simp
      rw [filepathJoin, if_pos hpne, Clean, if_neg hne]
      simp only [hrooted, decide_True, if_true, hsplit, List.cons_append, hce, List.reverse_reverse]
      rw [Join_snoc _ _ hrest]
      conv_rhs => rw [hpj]
      simp [String.append_assoc]
    · rw [if_neg ha] at hp
      simp only [List.all_eq_true] at hp
      have hpne : p ≠ "" := by
        intro h
        rw [h] at hS
        have : Split "" '/' = [""] := rfl
        rw [this] at hS
        exact ha (List.cons.inj hS).1.symm
      have hanos : '/' ∉ a.data :=
        splitAux_no_sep '/' p.data [] (by simp) a (by
          have : a ∈ Split p '/' := by rw [hS]; exact List.mem_cons_self _ _
          exact this)
      have hhead : (p ++ "/" ++ prog).data.head? ≠ some '/' := by
        have hpd : p.data = a.data ++ (if rest = [] then [] else '/' :: (Join rest "/").data) := by
          by_cases hr : rest = []
          · rw [← hjoin, hr]
            simp [Join]
          · rw [if_neg hr]
            conv_lhs => rw [← hjoin, Join_cons_of_ne _ _ _ hr]
            simp [String.data_append]
        have had : a.data ≠ [] := fun h => ha (String.ext h)
        rw [String.data_append, String.data_append, hpd]
        cases hda : a.data with
        | nil => exact absurd hda had
        | cons c cs =>
          simp only [List.cons_append, List.head?_cons, ne_eq, Option.some.injEq]
          intro hc
          apply hanos
          rw [hda, hc]
          exact List.mem_cons_self _ _
      have hall : ∀ e ∈ (a :: rest) ++ [prog], isRealElem e = true := by
        intro e he
        rcases List.mem_append.mp he with he | he
        · exact hp e he
        · rw [List.mem_singleton.mp he]; exact hreal
      have hrooted : decide ((p ++ "/" ++ prog).data.head? = some '/') = false := by
        simpa using hhead
      rw [filepathJoin, if_pos hpne, Clean, if_neg hne]
      simp only [hrooted, hsplit, cleanElems_real _ _ _ hall, List.append_nil, List.reverse_reverse]
      rw [Join_snoc _ _ (by simp), hjoin]
      simp

theorem whichLoop_cons (stat : FileSystem) (prog p : String) (rest : List String) :
    whichLoop stat prog (p :: rest) =
      if qualifies stat prog p = true then filepathJoin p prog else whichLoop stat prog rest := by
  rw [whichLoop]
  unfold qualifies
  cases stat (filepathJoin p prog) with
  | none => simp
  | some fi =>
    cases hd : fi.IsDir
    · by_cases hm : fi.Mode &&& 0o111 = 0
      · simp [hm, hd]
      · simp [hm, hd]
    · simp [hd]

theorem whichLoop_first (stat : FileSystem) (prog : String) (pre : List String) (p : String)
    (post : List String) (hpre : ∀ q ∈ pre, qualifies stat prog q = false)
    (hp : qualifies stat prog p = true) :
    whichLoop stat prog (pre ++ p :: post) = filepathJoin p prog := by
  induction pre with
  | nil => rw [List.nil_append, whichLoop_cons, if_pos hp]
  | cons q pre ih =>
    have hq := hpre q (List.mem_cons_self _ _)
    rw [List.cons_append, whichLoop_cons, if_neg (by simp [hq])]
    exact ih fun x hx => hpre x (List.mem_cons_of_mem _ hx)

theorem whichLoop_none (stat : FileSystem) (prog : String) (dirs : List String)
    (h : ∀ q ∈ dirs, qualifies stat prog q = false) : whichLoop stat prog dirs = "" := by
  induction dirs with
  | nil => rfl
  | cons q dirs ih =>
    rw [whichLoop_cons, if_neg (by simp [h q (List.mem_cons_self _ _)])]
    exact ih fun x hx => h x (List.mem_cons_of_mem _ hx)

theorem whichLoop_found (stat : FileSystem) (prog : String) (dirs : List String) :
    (∀ q ∈ dirs, qualifies stat prog q = false) ∨
      ∃ pre p post, dirs = pre ++ p :: post ∧ (∀ q ∈ pre, qualifies stat prog q = false) ∧
        qualifies stat prog p = true := by
  induction dirs with
  | nil => left; simp
  | cons q dirs ih =>
    by_cases hq : qualifies stat prog q = true
    · right
      exact ⟨[], q, dirs, rfl, by simp, hq⟩
    · rcases ih with ih | ⟨pre, p, post, hd, hpre, hp⟩
      · left
        intro x hx
        rcases List.mem_cons.mp hx with hx | hx
        · rw [hx]; simpa using hq
        · exact ih x hx
      · right
        refine ⟨q :: pre, p, post, by rw [hd]; rfl, ?_, hp⟩
        intro x hx
        rcases List.mem_cons.mp hx with hx | hx
        · rw [hx]; simpa using hq
        · exact hpre x hx

theorem qualifies_join_ne (stat : FileSystem) (prog p : String) (h0 : stat "" = none)
    (hp : qualifies stat prog p = true) : filepathJoin p prog ≠ "" := by
  intro h
  unfold qualifies at hp
  rw [h, h0] at hp
  cases hp

/-- What `Which` computes: the `filepath.Join` of `p` and the name for the
first directory `p` of `PATH` that holds the program, the empty string when
none does (and, `os.Stat` failing on the empty path, only then). A non-empty
result is such a join; for a directory in clean form and a plain name it is
the directory, `/` and the name. -/
theorem Which_first_qualifying (PATH : String) (stat : FileSystem) (prog : String) :
    (∀ pre p post, Split PATH ':' = pre ++ p :: post →
      (∀ q ∈ pre, qualifies stat prog q = false) → qualifies stat prog p = true →
      Which PATH stat prog = filepathJoin p prog) ∧
    ((∀ q ∈ Split PATH ':', qualifies stat prog q = false) → Which PATH stat prog = "") ∧
    (stat "" = none → Which PATH stat prog = "" →
      ∀ q ∈ Split PATH ':', qualifies stat prog q = false) ∧
    (Which PATH stat prog ≠ "" →
      ∃ p ∈ Split PATH ':', qualifies stat prog p = true ∧
        Which PATH stat prog = filepathJoin p prog ∧
        (isCleanDir p = true → isPlainName prog = true →
          Which PATH stat prog = p ++ "/" ++ prog ∧ p.data <+: (Which PATH stat prog).data)) := by
  refine ⟨?_, ?_, ?_, ?_⟩
  · intro pre p post hs hpre hp
    rw [Which, hs]
    exact whichLoop_first stat prog pre p post hpre hp
  · exact whichLoop_none stat prog _
  · intro h0 hw
    rcases whichLoop_found stat prog (Split PATH ':') with h | ⟨pre, p, post, hd, hpre, hp⟩
    · exact h
    · rw [Which, hd, whichLoop_first stat prog pre p post hpre hp] at hw
      exact absurd hw (qualifies_join_ne stat prog p h0 hp)
  · intro hw
    rcases whichLoop_found stat prog (Split PATH ':') with h | ⟨pre, p, post, hd, hpre, hp⟩
    · exact absurd (whichLoop_none stat prog _ h) hw
    · have hres : Which PATH stat prog = filepathJoin p prog := by
        rw [Which, hd]
        exact whichLoop_first stat prog pre p post hpre hp
      refine ⟨p, by rw [hd]; simp, hp, hres, ?_⟩
      intro hc hn
      have hj := filepathJoin_clean p prog hc hn
      rw [hres, hj]
      exact ⟨rfl, ("/" ++ prog).data, by simp [String.data_append]⟩

/-- With `PATH=/bin:/usr/bin:/usr/local/bin`, the directory `/bin/go` and the
non-executable `/usr/bin/go` are passed over and `/usr/local/bin/go` is
returned; a name found nowhere yields the empty string. -/
theorem Which_first_qualifying_example :
    Which "/bin:/usr/bin:/usr/local/bin" exampleFS "go" = "/usr/local/bin/go" ∧
    Which "/bin:/usr/bin:/usr/local/bin" exampleFS "gofmt" = "" ∧
    isCleanDir "/usr/local/bin" = true ∧ isPlainName "go" = true :=
  ⟨(Which_first_qualifying "/bin:/usr/bin:/usr/local/bin" exampleFS "go").1
      ["/bin", "/usr/bin"] "/usr/local/bin" [] (by decide) (by decide) (by decide),
    (Which_first_qualifying "/bin:/usr/bin:/usr/local/bin" exampleFS "gofmt").2.1 (by decide),
    by decide, by decide⟩

/-- C10, the code at the failing input: with `PATH=.` and an executable `go`
in the working directory, the directory `.` holds the program and `Which`
returns `go`, which is not a full path and starts with no directory of
`PATH`. -/
theorem C10_which_relative_dir :
    qualifies workingDirFS "go" "." = true ∧
    Which "." workingDirFS "go" = "go" ∧
    (∀ p ∈ Split "." ':', p.data.isPrefixOf (Which "." workingDirFS "go").data = false) ∧
    (Which "." workingDirFS "go").data.head? ≠ some '/' := by
  decide

end GoImportGraph
